import Mathlib

/-!
Verification of `sample_reads.py` (TopoRepeat): a streaming FASTA/FASTQ
length-filter and random-subsampling tool.  The Python source is embedded
shallowly: the per-record loop bodies become pure step functions on an
explicit loop state, the process-wide pseudorandom generator becomes an
explicit stream of rational draws in `[0,1)` indexed by the number of
draws taken so far, and the output file becomes the list of chunks passed
to `fout.write` in order.
-/

/-- The two input formats, as returned by `detect_format` ("fasta"/"fastq"). -/
inductive SequenceFormat where
  | fasta : SequenceFormat
  | fastq : SequenceFormat
deriving DecidableEq, Repr

/-- A FASTA record as yielded by the reader: `(name, seq)`. -/
structure FastaRecord where
  name : String
  seq : String
deriving DecidableEq, Repr

/-- A FASTQ record as yielded by the reader: `(name, seq, qual)`. -/
structure FastqRecord where
  name : String
  seq : String
  qual : String
deriving DecidableEq, Repr

/-- Embeds `detect_format` of `sample_reads.py`: read the first character of
the (decompressed) text; `>` means FASTA, `@` means FASTQ, anything else —
including an empty file, where `f.read(1)` returns the empty string — raises
`ValueError("Cannot detect file format (not FASTA/FASTQ)")`. -/
def detect_format (text : String) : Except String SequenceFormat :=
  match text.data with
  | [] => .error "Cannot detect file format (not FASTA/FASTQ)"
  | c :: _ =>
    if c = '>' then .ok .fasta
    else if c = '@' then .ok .fastq
    else .error "Cannot detect file format (not FASTA/FASTQ)"

/-- The mutable state threaded through the per-record loop of `process_file`:
the three counters (lines 65–67), the chunks written to `fout` so far in
order (the output file content is their concatenation), and the index of the
next pseudorandom draw to be consumed by `random.random()`. -/
structure LoopState where
  total_reads : Nat
  passed_length_filter : Nat
  retained_reads : Nat
  out : List String
  rngIdx : Nat
deriving DecidableEq, Repr

/-- Counters start at zero; nothing written; no draws consumed. -/
def initState : LoopState :=
  { total_reads := 0, passed_length_filter := 0, retained_reads := 0,
    out := [], rngIdx := 0 }

/-- Embeds the f-string `f">{name}\n{seq}\n"` at line 100. -/
def serializeFasta (r : FastaRecord) : String :=
  ">" ++ r.name ++ "\n" ++ r.seq ++ "\n"

/-- Embeds the f-string `f"@{name}\n{seq}\n+\n{qual}\n"` at line 88. -/
def serializeFastq (r : FastqRecord) : String :=
  "@" ++ r.name ++ "\n" ++ r.seq ++ "\n+\n" ++ r.qual ++ "\n"

/-- Embeds the FASTA loop body (lines 93–101): increment `total_reads`; if
`len(seq) >= min_len`, increment `passed_length_filter` and draw
`random.random()` (consuming draw `s.rngIdx` of the stream `draws`); if the
draw is `< probability`, write the serialized record and increment
`retained_reads`. -/
def fastaStep (min_len : Nat) (probability : ℚ) (draws : Nat → ℚ)
    (s : LoopState) (r : FastaRecord) : LoopState :=
  let s := { s with total_reads := s.total_reads + 1 }
  if min_len ≤ r.seq.length then
    let s := { s with passed_length_filter := s.passed_length_filter + 1 }
    if draws s.rngIdx < probability then
      { s with out := s.out ++ [serializeFasta r],
               retained_reads := s.retained_reads + 1,
               rngIdx := s.rngIdx + 1 }
    else { s with rngIdx := s.rngIdx + 1 }
  else s

/-- Embeds the FASTQ loop body (lines 81–89), identical to `fastaStep` except
for the serialization. -/
def fastqStep (min_len : Nat) (probability : ℚ) (draws : Nat → ℚ)
    (s : LoopState) (r : FastqRecord) : LoopState :=
  let s := { s with total_reads := s.total_reads + 1 }
  if min_len ≤ r.seq.length then
    let s := { s with passed_length_filter := s.passed_length_filter + 1 }
    if draws s.rngIdx < probability then
      { s with out := s.out ++ [serializeFastq r],
               retained_reads := s.retained_reads + 1,
               rngIdx := s.rngIdx + 1 }
    else { s with rngIdx := s.rngIdx + 1 }
  else s

/-- The whole FASTA loop on an error-free record stream, starting from
`initState`. -/
def processFasta (min_len : Nat) (probability : ℚ) (draws : Nat → ℚ)
    (records : List FastaRecord) : LoopState :=
  records.foldl (fastaStep min_len probability draws) initState

/-- The whole FASTQ loop on an error-free record stream, starting from
`initState`. -/
def processFastq (min_len : Nat) (probability : ℚ) (draws : Nat → ℚ)
    (records : List FastqRecord) : LoopState :=
  records.foldl (fastqStep min_len probability draws) initState

/-- Specification-side characterization of the retained records: starting
with draw index `i`, a record is kept iff it passes the length filter AND the
draw at its index is `< probability`; the draw index advances exactly on
records that pass the length filter. -/
def fastaRetained (min_len : Nat) (probability : ℚ) (draws : Nat → ℚ) :
    Nat → List FastaRecord → List FastaRecord
  | _, [] => []
  | i, r :: rs =>
    if min_len ≤ r.seq.length then
      (if draws i < probability then [r] else []) ++
        fastaRetained min_len probability draws (i + 1) rs
    else fastaRetained min_len probability draws i rs

/-- FASTQ version of `fastaRetained`. -/
def fastqRetained (min_len : Nat) (probability : ℚ) (draws : Nat → ℚ) :
    Nat → List FastqRecord → List FastqRecord
  | _, [] => []
  | i, r :: rs =>
    if min_len ≤ r.seq.length then
      (if draws i < probability then [r] else []) ++
        fastqRetained min_len probability draws (i + 1) rs
    else fastqRetained min_len probability draws i rs

/-- Number of records passing the length filter (`len(seq) >= min_len`). -/
def countPassedFasta (min_len : Nat) (records : List FastaRecord) : Nat :=
  (records.filter (fun r => min_len ≤ r.seq.length)).length

/-- FASTQ version of `countPassedFasta`. -/
def countPassedFastq (min_len : Nat) (records : List FastqRecord) : Nat :=
  (records.filter (fun r => min_len ≤ r.seq.length)).length

lemma fastaRetained_nil (m : Nat) (p : ℚ) (d : Nat → ℚ) (i : Nat) :
    fastaRetained m p d i [] = [] := rfl

lemma fastaRetained_cons (m : Nat) (p : ℚ) (d : Nat → ℚ) (i : Nat)
    (r : FastaRecord) (rs : List FastaRecord) :
    fastaRetained m p d i (r :: rs)
      = if m ≤ r.seq.length then
          (if d i < p then [r] else []) ++ fastaRetained m p d (i + 1) rs
        else fastaRetained m p d i rs := rfl

lemma fastqRetained_nil (m : Nat) (p : ℚ) (d : Nat → ℚ) (i : Nat) :
    fastqRetained m p d i [] = [] := rfl

lemma fastqRetained_cons (m : Nat) (p : ℚ) (d : Nat → ℚ) (i : Nat)
    (r : FastqRecord) (rs : List FastqRecord) :
    fastqRetained m p d i (r :: rs)
      = if m ≤ r.seq.length then
          (if d i < p then [r] else []) ++ fastqRetained m p d (i + 1) rs
        else fastqRetained m p d i rs := rfl

lemma fasta_foldl_total (m : Nat) (p : ℚ) (d : Nat → ℚ) (records : List FastaRecord) :
    ∀ s : LoopState,
      (List.foldl (fastaStep m p d) s records).total_reads = s.total_reads + records.length := by
  induction records with
  | nil => intro s; simp
  | cons r rs ih =>
    intro s
    simp only [List.foldl_cons, ih]
    unfold fastaStep
    by_cases hlen : m ≤ r.seq.length
    · by_cases hdraw : d s.rngIdx < p <;> simp [hlen, hdraw] <;> omega
    · simp [hlen]; omega

lemma fastq_foldl_total (m : Nat) (p : ℚ) (d : Nat → ℚ) (records : List FastqRecord) :
    ∀ s : LoopState,
      (List.foldl (fastqStep m p d) s records).total_reads = s.total_reads + records.length := by
  induction records with
  | nil => intro s; simp
  | cons r rs ih =>
    intro s
    simp only [List.foldl_cons, ih]
    unfold fastqStep
    by_cases hlen : m ≤ r.seq.length
    · by_cases hdraw : d s.rngIdx < p <;> simp [hlen, hdraw] <;> omega
    · simp [hlen]; omega

lemma fasta_foldl_passed (m : Nat) (p : ℚ) (d : Nat → ℚ) (records : List FastaRecord) :
    ∀ s : LoopState,
      (List.foldl (fastaStep m p d) s records).passed_length_filter
        = s.passed_length_filter + countPassedFasta m records := by
  induction records with
  | nil => intro s; simp [countPassedFasta]
  | cons r rs ih =>
    intro s
    simp only [List.foldl_cons, ih]
    unfold fastaStep
    by_cases hlen : m ≤ r.seq.length
    · by_cases hdraw : d s.rngIdx < p <;>
        simp [hlen, hdraw, countPassedFasta, List.filter_cons] <;> omega
    · simp [hlen, countPassedFasta, List.filter_cons]

lemma fastq_foldl_passed (m : Nat) (p : ℚ) (d : Nat → ℚ) (records : List FastqRecord) :
    ∀ s : LoopState,
      (List.foldl (fastqStep m p d) s records).passed_length_filter
        = s.passed_length_filter + countPassedFastq m records := by
  induction records with
  | nil => intro s; simp [countPassedFastq]
  | cons r rs ih =>
    intro s
    simp only [List.foldl_cons, ih]
    unfold fastqStep
    by_cases hlen : m ≤ r.seq.length
    · by_cases hdraw : d s.rngIdx < p <;>
        simp [hlen, hdraw, countPassedFastq, List.filter_cons] <;> omega
    · simp [hlen, countPassedFastq, List.filter_cons]

lemma fasta_foldl_rngIdx (m : Nat) (p : ℚ) (d : Nat → ℚ) (records : List FastaRecord) :
    ∀ s : LoopState,
      (List.foldl (fastaStep m p d) s records).rngIdx
        = s.rngIdx + countPassedFasta m records := by
  induction records with
  | nil => intro s; simp [countPassedFasta]
  | cons r rs ih =>
    intro s
    simp only [List.foldl_cons, ih]
    unfold fastaStep
    by_cases hlen : m ≤ r.seq.length
    · by_cases hdraw : d s.rngIdx < p <;>
        simp [hlen, hdraw, countPassedFasta, List.filter_cons] <;> omega
    · simp [hlen, countPassedFasta, List.filter_cons]

lemma fastq_foldl_rngIdx (m : Nat) (p : ℚ) (d : Nat → ℚ) (records : List FastqRecord) :
    ∀ s : LoopState,
      (List.foldl (fastqStep m p d) s records).rngIdx
        = s.rngIdx + countPassedFastq m records := by
  induction records with
  | nil => intro s; simp [countPassedFastq]
  | cons r rs ih =>
    intro s
    simp only [List.foldl_cons, ih]
    unfold fastqStep
    by_cases hlen : m ≤ r.seq.length
    · by_cases hdraw : d s.rngIdx < p <;>
        simp [hlen, hdraw, countPassedFastq, List.filter_cons] <;> omega
    · simp [hlen, countPassedFastq, List.filter_cons]

lemma fasta_foldl_retained (m : Nat) (p : ℚ) (d : Nat → ℚ) (records : List FastaRecord) :
    ∀ s : LoopState,
      (List.foldl (fastaStep m p d) s records).retained_reads
        = s.retained_reads + (fastaRetained m p d s.rngIdx records).length := by
  induction records with
  | nil => intro s; simp [fastaRetained_nil]
  | cons r rs ih =>
    intro s
    simp only [List.foldl_cons, ih]
    unfold fastaStep
    by_cases hlen : m ≤ r.seq.length
    · by_cases hdraw : d s.rngIdx < p <;>
        simp [hlen, hdraw, fastaRetained_cons] <;> omega
    · simp [hlen, fastaRetained_cons]

lemma fastq_foldl_retained (m : Nat) (p : ℚ) (d : Nat → ℚ) (records : List FastqRecord) :
    ∀ s : LoopState,
      (List.foldl (fastqStep m p d) s records).retained_reads
        = s.retained_reads + (fastqRetained m p d s.rngIdx records).length := by
  induction records with
  | nil => intro s; simp [fastqRetained_nil]
  | cons r rs ih =>
    intro s
    simp only [List.foldl_cons, ih]
    unfold fastqStep
    by_cases hlen : m ≤ r.seq.length
    · by_cases hdraw : d s.rngIdx < p <;>
        simp [hlen, hdraw, fastqRetained_cons] <;> omega
    · simp [hlen, fastqRetained_cons]

lemma fasta_foldl_out (m : Nat) (p : ℚ) (d : Nat → ℚ) (records : List FastaRecord) :
    ∀ s : LoopState,
      (List.foldl (fastaStep m p d) s records).out
        = s.out ++ (fastaRetained m p d s.rngIdx records).map serializeFasta := by
  induction records with
  | nil => intro s; simp [fastaRetained_nil]
  | cons r rs ih =>
    intro s
    simp only [List.foldl_cons, ih]
    unfold fastaStep
    by_cases hlen : m ≤ r.seq.length
    · by_cases hdraw : d s.rngIdx < p <;>
        simp [hlen, hdraw, fastaRetained_cons]
    · simp [hlen, fastaRetained_cons]

lemma fastq_foldl_out (m : Nat) (p : ℚ) (d : Nat → ℚ) (records : List FastqRecord) :
    ∀ s : LoopState,
      (List.foldl (fastqStep m p d) s records).out
        = s.out ++ (fastqRetained m p d s.rngIdx records).map serializeFastq := by
  induction records with
  | nil => intro s; simp [fastqRetained_nil]
  | cons r rs ih =>
    intro s
    simp only [List.foldl_cons, ih]
    unfold fastqStep
    by_cases hlen : m ≤ r.seq.length
    · by_cases hdraw : d s.rngIdx < p <;>
        simp [hlen, hdraw, fastqRetained_cons]
    · simp [hlen, fastqRetained_cons]

lemma fastaRetained_sublist (m : Nat) (p : ℚ) (d : Nat → ℚ)
    (records : List FastaRecord) :
    ∀ i : Nat, (fastaRetained m p d i records).Sublist records := by
  induction records with
  | nil => intro i; simp [fastaRetained_nil]
  | cons r rs ih =>
    intro i
    rw [fastaRetained_cons]
    by_cases hlen : m ≤ r.seq.length
    · by_cases hdraw : d i < p
      · simpa [hlen, hdraw] using (ih (i + 1)).cons₂ r
      · simpa [hlen, hdraw] using (ih (i + 1)).cons r
    · simpa [hlen] using (ih i).cons r

lemma fastqRetained_sublist (m : Nat) (p : ℚ) (d : Nat → ℚ)
    (records : List FastqRecord) :
    ∀ i : Nat, (fastqRetained m p d i records).Sublist records := by
  induction records with
  | nil => intro i; simp [fastqRetained_nil]
  | cons r rs ih =>
    intro i
    rw [fastqRetained_cons]
    by_cases hlen : m ≤ r.seq.length
    · by_cases hdraw : d i < p
      · simpa [hlen, hdraw] using (ih (i + 1)).cons₂ r
      · simpa [hlen, hdraw] using (ih (i + 1)).cons r
    · simpa [hlen] using (ih i).cons r

lemma fastaRetained_length_ge (m : Nat) (p : ℚ) (d : Nat → ℚ)
    (records : List FastaRecord) :
    ∀ i : Nat, ∀ r ∈ fastaRetained m p d i records, m ≤ r.seq.length := by
  induction records with
  | nil => intro i r hr; simp [fastaRetained_nil] at hr
  | cons r rs ih =>
    intro i x hx
    rw [fastaRetained_cons] at hx
    by_cases hlen : m ≤ r.seq.length
    · by_cases hdraw : d i < p
      · simp [hlen, hdraw] at hx
        rcases hx with hx | hx
        · exact hx ▸ hlen
        · exact ih (i + 1) x hx
      · simp [hlen, hdraw] at hx
        exact ih (i + 1) x hx
    · simp [hlen] at hx
      exact ih i x hx

lemma fastqRetained_length_ge (m : Nat) (p : ℚ) (d : Nat → ℚ)
    (records : List FastqRecord) :
    ∀ i : Nat, ∀ r ∈ fastqRetained m p d i records, m ≤ r.seq.length := by
  induction records with
  | nil => intro i r hr; simp [fastqRetained_nil] at hr
  | cons r rs ih =>
    intro i x hx
    rw [fastqRetained_cons] at hx
    by_cases hlen : m ≤ r.seq.length
    · by_cases hdraw : d i < p
      · simp [hlen, hdraw] at hx
        rcases hx with hx | hx
        · exact hx ▸ hlen
        · exact ih (i + 1) x hx
      · simp [hlen, hdraw] at hx
        exact ih (i + 1) x hx
    · simp [hlen] at hx
      exact ih i x hx

/-- Claim C1: the output file of a run is exactly the serializations, in original
input order, of the records characterized by `fastaRetained`/`fastqRetained`
(retained iff `len(seq) >= min_len` and the record's own uniform draw is
`< probability`); the retained records form a sublist of the input (original
order, no duplication); no record failing the length filter is ever written;
and the number of pseudorandom draws consumed equals the number of records
that passed the length filter, so a draw is taken exactly for the records
that pass the length filter. -/
theorem C1_retained_output (m : Nat) (p : ℚ) (d : Nat → ℚ)
    (fa : List FastaRecord) (fq : List FastqRecord) :
    (processFasta m p d fa).out = (fastaRetained m p d 0 fa).map serializeFasta
    ∧ (fastaRetained m p d 0 fa).Sublist fa
    ∧ (∀ r ∈ fastaRetained m p d 0 fa, m ≤ r.seq.length)
    ∧ (processFasta m p d fa).rngIdx = countPassedFasta m fa
    ∧ (processFastq m p d fq).out = (fastqRetained m p d 0 fq).map serializeFastq
    ∧ (fastqRetained m p d 0 fq).Sublist fq
    ∧ (∀ r ∈ fastqRetained m p d 0 fq, m ≤ r.seq.length)
    ∧ (processFastq m p d fq).rngIdx = countPassedFastq m fq := by
  refine ⟨?_, fastaRetained_sublist m p d fa 0, fastaRetained_length_ge m p d fa 0, ?_,
          ?_, fastqRetained_sublist m p d fq 0, fastqRetained_length_ge m p d fq 0, ?_⟩
  · simpa [initState] using fasta_foldl_out m p d fa initState
  · simpa [initState] using fasta_foldl_rngIdx m p d fa initState
  · simpa [initState] using fastq_foldl_out m p d fq initState
  · simpa [initState] using fastq_foldl_rngIdx m p d fq initState

/-- Witness for C1 at a concrete input: one FASTA record of length 4 with
`min_len = 2` and a succeeding draw is serialized into the output, and the
length-filter guarantee holds for it. -/
theorem C1_retained_output_witness :
    (processFasta 2 (1/2 : ℚ) (fun _ => (1/4 : ℚ)) [⟨"a", "ACGT"⟩]).out
        = (fastaRetained 2 (1/2 : ℚ) (fun _ => (1/4 : ℚ)) 0 [⟨"a", "ACGT"⟩]).map serializeFasta
    ∧ 2 ≤ (FastaRecord.mk "a" "ACGT").seq.length := by
  refine ⟨(C1_retained_output 2 (1/2) (fun _ => (1/4 : ℚ)) [⟨"a", "ACGT"⟩] []).1, ?_⟩
  exact (C1_retained_output 2 (1/2) (fun _ => (1/4 : ℚ)) [⟨"a", "ACGT"⟩] []).2.2.1
    ⟨"a", "ACGT"⟩ (by norm_num [fastaRetained_cons, fastaRetained_nil,
      show 2 ≤ "ACGT".length by decide])

/-- Claim C2: the length filter is exactly `len(seq) >= min_len` — the final
`passed_length_filter` counter equals the number of records whose sequence
length is `>= min_len` (so equality with `min_len` passes), the step function
increments it exactly on a pass, and with `min_len = 0` every record passes,
empty sequences included. -/
theorem C2_length_filter (m : Nat) (p : ℚ) (d : Nat → ℚ)
    (fa : List FastaRecord) (fq : List FastqRecord) :
    (processFasta m p d fa).passed_length_filter
        = (fa.filter (fun r => m ≤ r.seq.length)).length
    ∧ (processFastq m p d fq).passed_length_filter
        = (fq.filter (fun r => m ≤ r.seq.length)).length
    ∧ (∀ s r, (fastaStep m p d s r).passed_length_filter
        = s.passed_length_filter + (if m ≤ r.seq.length then 1 else 0))
    ∧ (∀ s r, (fastqStep m p d s r).passed_length_filter
        = s.passed_length_filter + (if m ≤ r.seq.length then 1 else 0))
    ∧ (processFasta 0 p d fa).passed_length_filter = fa.length
    ∧ (processFastq 0 p d fq).passed_length_filter = fq.length := by
  have hfa : ∀ m : Nat, (processFasta m p d fa).passed_length_filter
      = (fa.filter (fun r => m ≤ r.seq.length)).length := by
    intro m
    simpa [initState, countPassedFasta] using fasta_foldl_passed m p d fa initState
  have hfq : ∀ m : Nat, (processFastq m p d fq).passed_length_filter
      = (fq.filter (fun r => m ≤ r.seq.length)).length := by
    intro m
    simpa [initState, countPassedFastq] using fastq_foldl_passed m p d fq initState
  refine ⟨hfa m, hfq m, ?_, ?_, ?_, ?_⟩
  · intro s r
    unfold fastaStep
    by_cases hlen : m ≤ r.seq.length
    · by_cases hdraw : d s.rngIdx < p <;> simp [hlen, hdraw]
    · simp [hlen]
  · intro s r
    unfold fastqStep
    by_cases hlen : m ≤ r.seq.length
    · by_cases hdraw : d s.rngIdx < p <;> simp [hlen, hdraw]
    · simp [hlen]
  · rw [hfa 0]; simp
  · rw [hfq 0]; simp

lemma fastaRetained_prob_zero (m : Nat) (d : Nat → ℚ) (records : List FastaRecord)
    (h0 : ∀ i, 0 ≤ d i) :
    ∀ i : Nat, fastaRetained m 0 d i records = [] := by
  induction records with
  | nil => intro i; simp [fastaRetained_nil]
  | cons r rs ih =>
    intro i
    rw [fastaRetained_cons]
    have hnn : ¬ d i < 0 := not_lt.2 (h0 i)
    have hnn1 : ¬ d (i + 1) < 0 := not_lt.2 (h0 (i + 1))
    by_cases hlen : m ≤ r.seq.length <;> simp [hlen, hnn, ih]

lemma fastqRetained_prob_zero (m : Nat) (d : Nat → ℚ) (records : List FastqRecord)
    (h0 : ∀ i, 0 ≤ d i) :
    ∀ i : Nat, fastqRetained m 0 d i records = [] := by
  induction records with
  | nil => intro i; simp [fastqRetained_nil]
  | cons r rs ih =>
    intro i
    rw [fastqRetained_cons]
    have hnn : ¬ d i < 0 := not_lt.2 (h0 i)
    by_cases hlen : m ≤ r.seq.length <;> simp [hlen, hnn, ih]

lemma fastaRetained_prob_one (m : Nat) (p : ℚ) (d : Nat → ℚ) (records : List FastaRecord)
    (hp : 1 ≤ p) (h1 : ∀ i, d i < 1) :
    ∀ i : Nat, fastaRetained m p d i records = records.filter (fun r => m ≤ r.seq.length) := by
  induction records with
  | nil => intro i; simp [fastaRetained_nil]
  | cons r rs ih =>
    intro i
    rw [fastaRetained_cons]
    have hdr : d i < p := lt_of_lt_of_le (h1 i) hp
    by_cases hlen : m ≤ r.seq.length <;> simp [hlen, hdr, ih, List.filter_cons]

lemma fastqRetained_prob_one (m : Nat) (p : ℚ) (d : Nat → ℚ) (records : List FastqRecord)
    (hp : 1 ≤ p) (h1 : ∀ i, d i < 1) :
    ∀ i : Nat, fastqRetained m p d i records = records.filter (fun r => m ≤ r.seq.length) := by
  induction records with
  | nil => intro i; simp [fastqRetained_nil]
  | cons r rs ih =>
    intro i
    rw [fastqRetained_cons]
    have hdr : d i < p := lt_of_lt_of_le (h1 i) hp
    by_cases hlen : m ≤ r.seq.length <;> simp [hlen, hdr, ih, List.filter_cons]

/-- Claim C3: when the uniform draws lie in `[0,1)` (the contract of
`random.random()`), a run with `probability = 0` retains nothing and writes
nothing while `total_reads` and `passed_length_filter` still count normally;
and for any `probability ≥ 1` every record passing the length filter is
retained and written, for both formats. -/
theorem C3_probability_extremes (m : Nat) (d : Nat → ℚ)
    (fa : List FastaRecord) (fq : List FastqRecord)
    (h0 : ∀ i, 0 ≤ d i) (h1 : ∀ i, d i < 1) :
    ((processFasta m 0 d fa).retained_reads = 0
      ∧ (processFasta m 0 d fa).out = []
      ∧ (processFasta m 0 d fa).total_reads = fa.length
      ∧ (processFasta m 0 d fa).passed_length_filter = countPassedFasta m fa)
    ∧ ((processFastq m 0 d fq).retained_reads = 0
      ∧ (processFastq m 0 d fq).out = []
      ∧ (processFastq m 0 d fq).total_reads = fq.length
      ∧ (processFastq m 0 d fq).passed_length_filter = countPassedFastq m fq)
    ∧ (∀ p : ℚ, 1 ≤ p →
        (processFasta m p d fa).retained_reads = countPassedFasta m fa
        ∧ (processFasta m p d fa).out
            = (fa.filter (fun r => m ≤ r.seq.length)).map serializeFasta)
    ∧ (∀ p : ℚ, 1 ≤ p →
        (processFastq m p d fq).retained_reads = countPassedFastq m fq
        ∧ (processFastq m p d fq).out
            = (fq.filter (fun r => m ≤ r.seq.length)).map serializeFastq) := by
  refine ⟨⟨?_, ?_, ?_, ?_⟩, ⟨?_, ?_, ?_, ?_⟩, ?_, ?_⟩
  · have h := fasta_foldl_retained m 0 d fa initState
    rw [fastaRetained_prob_zero m d fa h0] at h
    simpa [initState] using h
  · have h := fasta_foldl_out m 0 d fa initState
    rw [fastaRetained_prob_zero m d fa h0] at h
    simpa [initState] using h
  · simpa [initState] using fasta_foldl_total m 0 d fa initState
  · simpa [initState] using fasta_foldl_passed m 0 d fa initState
  · have h := fastq_foldl_retained m 0 d fq initState
    rw [fastqRetained_prob_zero m d fq h0] at h
    simpa [initState] using h
  · have h := fastq_foldl_out m 0 d fq initState
    rw [fastqRetained_prob_zero m d fq h0] at h
    simpa [initState] using h
  · simpa [initState] using fastq_foldl_total m 0 d fq initState
  · simpa [initState] using fastq_foldl_passed m 0 d fq initState
  · intro p hp
    constructor
    · have h := fasta_foldl_retained m p d fa initState
      rw [fastaRetained_prob_one m p d fa hp h1] at h
      simpa [initState, countPassedFasta] using h
    · have h := fasta_foldl_out m p d fa initState
      rw [fastaRetained_prob_one m p d fa hp h1] at h
      simpa [initState] using h
  · intro p hp
    constructor
    · have h := fastq_foldl_retained m p d fq initState
      rw [fastqRetained_prob_one m p d fq hp h1] at h
      simpa [initState, countPassedFastq] using h
    · have h := fastq_foldl_out m p d fq initState
      rw [fastqRetained_prob_one m p d fq hp h1] at h
      simpa [initState] using h

/-- Witness for C3 at a concrete input: one five-character FASTA record with
`min_len = 3` and draws constantly `1/3`; probability `0` retains nothing,
probability `1` retains the length-passing record. -/
theorem C3_probability_extremes_witness :
    (processFasta 3 0 (fun _ => (1/3 : ℚ)) [⟨"a", "ACGTA"⟩]).retained_reads = 0
    ∧ (processFasta 3 1 (fun _ => (1/3 : ℚ)) [⟨"a", "ACGTA"⟩]).retained_reads
        = countPassedFasta 3 [⟨"a", "ACGTA"⟩] := by
  have h := C3_probability_extremes 3 (fun _ => (1/3 : ℚ)) [⟨"a", "ACGTA"⟩] []
    (fun i => by norm_num) (fun i => by norm_num)
  exact ⟨h.1.1, (h.2.2.1 1 le_rfl).1⟩

lemma fastaRetained_length_le (m : Nat) (p : ℚ) (d : Nat → ℚ)
    (records : List FastaRecord) :
    ∀ i : Nat, (fastaRetained m p d i records).length ≤ countPassedFasta m records := by
  induction records with
  | nil => intro i; simp [fastaRetained_nil, countPassedFasta]
  | cons r rs ih =>
    intro i
    rw [fastaRetained_cons]
    by_cases hlen : m ≤ r.seq.length
    · by_cases hdraw : d i < p <;>
        · simp [hlen, hdraw, countPassedFasta, List.filter_cons]
          have := ih (i + 1)
          simp [countPassedFasta] at this
          omega
    · simp [hlen, countPassedFasta, List.filter_cons]
      have := ih i
      simp [countPassedFasta] at this
      omega

lemma fastqRetained_length_le (m : Nat) (p : ℚ) (d : Nat → ℚ)
    (records : List FastqRecord) :
    ∀ i : Nat, (fastqRetained m p d i records).length ≤ countPassedFastq m records := by
  induction records with
  | nil => intro i; simp [fastqRetained_nil, countPassedFastq]
  | cons r rs ih =>
    intro i
    rw [fastqRetained_cons]
    by_cases hlen : m ≤ r.seq.length
    · by_cases hdraw : d i < p <;>
        · simp [hlen, hdraw, countPassedFastq, List.filter_cons]
          have := ih (i + 1)
          simp [countPassedFastq] at this
          omega
    · simp [hlen, countPassedFastq, List.filter_cons]
      have := ih i
      simp [countPassedFastq] at this
      omega

/-- Claim C4: the three counters start at zero; after processing any prefix of the
input (i.e. at every point during the run and at the end),
`total_reads ≥ passed_length_filter ≥ retained_reads ≥ 0` holds and
`total_reads` equals the number of records processed so far (incremented
exactly once per record); and each loop step increments `total_reads` by
exactly one unconditionally (before the length check can suppress anything)
and never decrements any counter. -/
theorem C4_counter_invariants (m : Nat) (p : ℚ) (d : Nat → ℚ)
    (fa : List FastaRecord) (fq : List FastqRecord) :
    (initState.total_reads = 0 ∧ initState.passed_length_filter = 0
      ∧ initState.retained_reads = 0)
    ∧ (∀ k : Nat,
        (processFasta m p d (fa.take k)).retained_reads
            ≤ (processFasta m p d (fa.take k)).passed_length_filter
        ∧ (processFasta m p d (fa.take k)).passed_length_filter
            ≤ (processFasta m p d (fa.take k)).total_reads
        ∧ (processFasta m p d (fa.take k)).total_reads = min k fa.length)
    ∧ (∀ k : Nat,
        (processFastq m p d (fq.take k)).retained_reads
            ≤ (processFastq m p d (fq.take k)).passed_length_filter
        ∧ (processFastq m p d (fq.take k)).passed_length_filter
            ≤ (processFastq m p d (fq.take k)).total_reads
        ∧ (processFastq m p d (fq.take k)).total_reads = min k fq.length)
    ∧ (∀ (s : LoopState) (r : FastaRecord),
        (fastaStep m p d s r).total_reads = s.total_reads + 1
        ∧ s.passed_length_filter ≤ (fastaStep m p d s r).passed_length_filter
        ∧ s.retained_reads ≤ (fastaStep m p d s r).retained_reads)
    ∧ (∀ (s : LoopState) (r : FastqRecord),
        (fastqStep m p d s r).total_reads = s.total_reads + 1
        ∧ s.passed_length_filter ≤ (fastqStep m p d s r).passed_length_filter
        ∧ s.retained_reads ≤ (fastqStep m p d s r).retained_reads) := by
  refine ⟨⟨rfl, rfl, rfl⟩, ?_, ?_, ?_, ?_⟩
  · intro k
    have htot : (processFasta m p d (fa.take k)).total_reads = (fa.take k).length := by
      simpa [initState] using fasta_foldl_total m p d (fa.take k) initState
    have hpass : (processFasta m p d (fa.take k)).passed_length_filter
        = countPassedFasta m (fa.take k) := by
      simpa [initState] using fasta_foldl_passed m p d (fa.take k) initState
    have hret : (processFasta m p d (fa.take k)).retained_reads
        = (fastaRetained m p d 0 (fa.take k)).length := by
      simpa [initState] using fasta_foldl_retained m p d (fa.take k) initState
    have hle := fastaRetained_length_le m p d (fa.take k) 0
    have hfle : countPassedFasta m (fa.take k) ≤ (fa.take k).length :=
      List.length_filter_le _ _
    have hlen : (fa.take k).length = min k fa.length := List.length_take k fa
    refine ⟨?_, ?_, ?_⟩ <;> omega
  · intro k
    have htot : (processFastq m p d (fq.take k)).total_reads = (fq.take k).length := by
      simpa [initState] using fastq_foldl_total m p d (fq.take k) initState
    have hpass : (processFastq m p d (fq.take k)).passed_length_filter
        = countPassedFastq m (fq.take k) := by
      simpa [initState] using fastq_foldl_passed m p d (fq.take k) initState
    have hret : (processFastq m p d (fq.take k)).retained_reads
        = (fastqRetained m p d 0 (fq.take k)).length := by
      simpa [initState] using fastq_foldl_retained m p d (fq.take k) initState
    have hle := fastqRetained_length_le m p d (fq.take k) 0
    have hfle : countPassedFastq m (fq.take k) ≤ (fq.take k).length :=
      List.length_filter_le _ _
    have hlen : (fq.take k).length = min k fq.length := List.length_take k fq
    refine ⟨?_, ?_, ?_⟩ <;> omega
  · intro s r
    unfold fastaStep
    by_cases hlen : m ≤ r.seq.length
    · by_cases hdraw : d s.rngIdx < p <;> simp [hlen, hdraw]
    · simp [hlen]
  · intro s r
    unfold fastqStep
    by_cases hlen : m ≤ r.seq.length
    · by_cases hdraw : d s.rngIdx < p <;> simp [hlen, hdraw]
    · simp [hlen]

/-- Claim C5: format detection looks only at the first character of the
(decompressed) input text: `>` classifies the run as FASTA, `@` as FASTQ, and
any other first character — or an empty input — yields the
`ValueError("Cannot detect file format (not FASTA/FASTQ)")`; two inputs with
the same first character are detected identically, so nothing beyond the
first character is read. -/
theorem C5_detect_format (text : String) :
    (text.data.head? = some '>' → detect_format text = .ok .fasta)
    ∧ (text.data.head? = some '@' → detect_format text = .ok .fastq)
    ∧ (∀ c : Char, text.data.head? = some c → c ≠ '>' → c ≠ '@' →
        detect_format text = .error "Cannot detect file format (not FASTA/FASTQ)")
    ∧ (text = "" → detect_format text = .error "Cannot detect file format (not FASTA/FASTQ)")
    ∧ (∀ t : String, text.data.head? = t.data.head? →
        detect_format text = detect_format t) := by
  refine ⟨?_, ?_, ?_, ?_, ?_⟩
  · intro h
    rcases htext : text.data with _ | ⟨c, cs⟩
    · rw [htext] at h; simp at h
    · rw [htext] at h
      simp only [List.head?_cons, Option.some.injEq] at h
      simp [detect_format, htext, h]
  · intro h
    rcases htext : text.data with _ | ⟨c, cs⟩
    · rw [htext] at h; simp at h
    · rw [htext] at h
      simp only [List.head?_cons, Option.some.injEq] at h
      simp [detect_format, htext, h]
  · intro c h hgt hat
    rcases htext : text.data with _ | ⟨c₀, cs⟩
    · rw [htext] at h; simp at h
    · rw [htext] at h
      simp only [List.head?_cons, Option.some.injEq] at h
      subst h
      simp [detect_format, htext, hgt, hat]
  · intro h
    subst h
    rfl
  · intro t h
    rcases htext : text.data with _ | ⟨c₀, cs₀⟩ <;>
      rcases ht : t.data with _ | ⟨c₁, cs₁⟩ <;>
        rw [htext, ht] at h <;> simp at h
    · simp [detect_format, htext, ht]
    · subst h
      simp [detect_format, htext, ht]

/-- Witness for C5 at concrete inputs: `>`-led text is FASTA, `@`-led text is
FASTQ, other or empty text fails with the `ValueError` message. -/
theorem C5_detect_format_witness :
    detect_format ">r1" = .ok .fasta
    ∧ detect_format "@r1" = .ok .fastq
    ∧ detect_format "r1" = .error "Cannot detect file format (not FASTA/FASTQ)"
    ∧ detect_format "" = .error "Cannot detect file format (not FASTA/FASTQ)" := by
  refine ⟨(C5_detect_format ">r1").1 rfl,
          (C5_detect_format "@r1").2.1 rfl,
          (C5_detect_format "r1").2.2.1 'r' rfl (by decide) (by decide),
          (C5_detect_format "").2.2.2.1 rfl⟩

/-- The run's draw stream (lines 59–60): `process_file` seeds the global
generator only when `args.seed != 0`; with a non-zero seed every subsequent
`random.random()` comes from the deterministic stream `mt seed` of the
seeded generator (`mt` is the pseudorandom algorithm, an external capability
shared by all runs), otherwise the draws come from the ambient, unseeded
generator state, which differs from run to run. -/
def runDraws (mt : ℤ → Nat → ℚ) (ambient : Nat → ℚ) (seed : ℤ) : Nat → ℚ :=
  if seed ≠ 0 then mt seed else ambient

/-- Claim C6: with a fixed non-zero seed, two runs on identical input and identical
configuration that differ only in the ambient (unseeded) generator state make
identical retain/drop decisions, reach identical final states, and write an
identical sequence of chunks to the output file — the seeding at run start
removes the only source of run-to-run nondeterminism. -/
theorem C6_determinism (mt : ℤ → Nat → ℚ) (amb1 amb2 : Nat → ℚ) (seed : ℤ)
    (m : Nat) (p : ℚ) (fa : List FastaRecord) (fq : List FastqRecord)
    (hs : seed ≠ 0) :
    processFasta m p (runDraws mt amb1 seed) fa
        = processFasta m p (runDraws mt amb2 seed) fa
    ∧ processFastq m p (runDraws mt amb1 seed) fq
        = processFastq m p (runDraws mt amb2 seed) fq
    ∧ (processFasta m p (runDraws mt amb1 seed) fa).out
        = (processFasta m p (runDraws mt amb2 seed) fa).out
    ∧ (processFastq m p (runDraws mt amb1 seed) fq).out
        = (processFastq m p (runDraws mt amb2 seed) fq).out := by
  have h : runDraws mt amb1 seed = runDraws mt amb2 seed := by
    funext i
    simp [runDraws, hs]
  exact ⟨by rw [h], by rw [h], by rw [h], by rw [h]⟩

/-- Witness for C6: seed 1, two different ambient states, one record. -/
theorem C6_determinism_witness :
    processFasta 0 1 (runDraws (fun _ _ => (1/2 : ℚ)) (fun _ => 0) 1) [⟨"a", "A"⟩]
      = processFasta 0 1 (runDraws (fun _ _ => (1/2 : ℚ)) (fun _ => 1) 1) [⟨"a", "A"⟩] :=
  (C6_determinism (fun _ _ => (1/2 : ℚ)) (fun _ => 0) (fun _ => 1) 1 0 1
    [⟨"a", "A"⟩] [] (by decide)).1

/-- Splits a character list at newline characters, Python-`split("\n")`
style: a trailing newline yields a final empty segment. -/
def splitLines : List Char → List (List Char)
  | [] => [[]]
  | c :: cs =>
    let rest := splitLines cs
    if c = '\n' then [] :: rest
    else (c :: rest.headD []) :: rest.tail

lemma splitLines_nil : splitLines [] = [[]] := rfl

lemma splitLines_cons (c : Char) (cs : List Char) :
    splitLines (c :: cs)
      = if c = '\n' then [] :: splitLines cs
        else (c :: (splitLines cs).headD []) :: (splitLines cs).tail := rfl

lemma splitLines_newline_append (xs ys : List Char) (h : '\n' ∉ xs) :
    splitLines (xs ++ '\n' :: ys) = xs :: splitLines ys := by
  induction xs with
  | nil => simp [splitLines_cons, splitLines_nil]
  | cons c cs ih =>
    have hc : ¬ c = '\n' := fun hh => h (hh ▸ List.mem_cons_self c cs)
    have h2 : '\n' ∉ cs := fun hh => h (List.mem_cons_of_mem c hh)
    simp [List.cons_append, splitLines_cons, hc, ih h2]

lemma serializeFasta_data (r : FastaRecord) :
    (serializeFasta r).data
      = ('>' :: r.name.data) ++ '\n' :: (r.seq.data ++ '\n' :: []) := by
  simp [serializeFasta, String.data_append]

lemma serializeFastq_data (r : FastqRecord) :
    (serializeFastq r).data
      = ('@' :: r.name.data)
          ++ '\n' :: (r.seq.data ++ '\n' :: ('+' :: '\n' :: (r.qual.data ++ '\n' :: []))) := by
  simp [serializeFastq, String.data_append]

/-- Claim C7: every retained record is written in the detected input format.  When
name, sequence and quality contain no newline, the chunk written for a FASTA
record splits at newlines into exactly `>`+name and the unwrapped sequence
(each write ends in a newline, hence the final empty segment), and the chunk
written for a FASTQ record splits into exactly `@`+name, sequence, `+`, and
quality; and the output of a run consists of exactly these serializations of
the retained records. -/
theorem C7_serialization (ra : FastaRecord) (rq : FastqRecord)
    (h1 : '\n' ∉ ra.name.data) (h2 : '\n' ∉ ra.seq.data)
    (h3 : '\n' ∉ rq.name.data) (h4 : '\n' ∉ rq.seq.data)
    (h5 : '\n' ∉ rq.qual.data) :
    splitLines (serializeFasta ra).data
        = ['>' :: ra.name.data, ra.seq.data, []]
    ∧ splitLines (serializeFastq rq).data
        = ['@' :: rq.name.data, rq.seq.data, ['+'], rq.qual.data, []]
    ∧ (∀ (m : Nat) (p : ℚ) (d : Nat → ℚ) (fa : List FastaRecord),
        (processFasta m p d fa).out = (fastaRetained m p d 0 fa).map serializeFasta)
    ∧ (∀ (m : Nat) (p : ℚ) (d : Nat → ℚ) (fq : List FastqRecord),
        (processFastq m p d fq).out = (fastqRetained m p d 0 fq).map serializeFastq) := by
  have hgt : '\n' ∉ ('>' :: ra.name.data) := by
    intro h
    rcases List.mem_cons.1 h with h | h
    · exact absurd h.symm (by decide)
    · exact h1 h
  have hat : '\n' ∉ ('@' :: rq.name.data) := by
    intro h
    rcases List.mem_cons.1 h with h | h
    · exact absurd h.symm (by decide)
    · exact h3 h
  have hplus : '\n' ∉ ['+'] := by decide
  refine ⟨?_, ?_, ?_, ?_⟩
  · rw [serializeFasta_data, splitLines_newline_append _ _ hgt,
        splitLines_newline_append _ _ h2, splitLines_nil]
  · rw [serializeFastq_data, splitLines_newline_append _ _ hat,
        splitLines_newline_append _ _ h4]
    have : ('+' :: '\n' :: (rq.qual.data ++ '\n' :: []))
        = ['+'] ++ '\n' :: (rq.qual.data ++ '\n' :: []) := rfl
    rw [this, splitLines_newline_append _ _ hplus,
        splitLines_newline_append _ _ h5, splitLines_nil]
  · intro m p d fa
    simpa [initState] using fasta_foldl_out m p d fa initState
  · intro m p d fq
    simpa [initState] using fastq_foldl_out m p d fq initState

/-- Witness for C7 at a concrete newline-free FASTA and FASTQ record. -/
theorem C7_serialization_witness :
    splitLines (serializeFasta ⟨"r1", "ACGT"⟩).data
        = ['>' :: ("r1" : String).data, ("ACGT" : String).data, []]
    ∧ splitLines (serializeFastq ⟨"r2", "ACGT", "!!!!"⟩).data
        = ['@' :: ("r2" : String).data, ("ACGT" : String).data, ['+'],
           ("!!!!" : String).data, []] := by
  have h := C7_serialization ⟨"r1", "ACGT"⟩ ⟨"r2", "ACGT", "!!!!"⟩
    (by decide) (by decide) (by decide) (by decide) (by decide)
  exact ⟨h.1, h.2.1⟩

/-- The data printed by the statistics block (lines 107–118): detected
format, the three counters, the requested percentage, and the actual
retention ratio, which is `none` when the ratio line is omitted. -/
structure Report where
  filetype : SequenceFormat
  total_reads : Nat
  min_len : Nat
  passed_length_filter : Nat
  percent : ℚ
  retained_reads : Nat
  actual_ratio : Option ℚ
deriving DecidableEq, Repr

/-- Embeds the statistics block: the ratio line
`actual_ratio = (retained_reads / total_reads) * 100` is computed and printed
only under the guard `total_reads > 0` (line 115), otherwise it is omitted. -/
def mkReport (filetype : SequenceFormat) (min_len : Nat) (percent : ℚ)
    (s : LoopState) : Report :=
  { filetype := filetype, total_reads := s.total_reads, min_len := min_len,
    passed_length_filter := s.passed_length_filter, percent := percent,
    retained_reads := s.retained_reads,
    actual_ratio :=
      if 0 < s.total_reads then
        some (((s.retained_reads : ℚ) / (s.total_reads : ℚ)) * 100)
      else none }

/-- `true` on a stream element that is a record, `false` on one that stands
for an exception raised by the reader at that point. -/
def exceptOk {α : Type} : Except String α → Bool
  | .ok _ => true
  | .error _ => false

/-- The FASTA `for` loop over the fallible record stream: an exceptional
element aborts the iteration at once (the exception propagates out of the
loop to the handler at line 103), returning the state reached so far and the
exception's message. -/
def loopFasta (min_len : Nat) (probability : ℚ) (draws : Nat → ℚ) :
    LoopState → List (Except String FastaRecord) → LoopState × Option String
  | s, [] => (s, none)
  | s, .error e :: _ => (s, some e)
  | s, .ok r :: rest =>
    loopFasta min_len probability draws (fastaStep min_len probability draws s r) rest

/-- FASTQ version of `loopFasta`. -/
def loopFastq (min_len : Nat) (probability : ℚ) (draws : Nat → ℚ) :
    LoopState → List (Except String FastqRecord) → LoopState × Option String
  | s, [] => (s, none)
  | s, .error e :: _ => (s, some e)
  | s, .ok r :: rest =>
    loopFastq min_len probability draws (fastqStep min_len probability draws s r) rest

/-- Observable outcome of one whole `process_file` run: the process exit
code, the lines printed to stderr, the statistics report (if reached), and
the output file content as the list of chunks written — `none` when the file
was never created. -/
structure RunResult where
  exitCode : Nat
  errLines : List String
  report : Option Report
  outputFile : Option (List String)
deriving Repr

/-- Embeds `process_file` end to end; external effects are parameters.
`contents` is the input file's decompressed text, or the OS error message
when opening it fails (the exception escapes `detect_format`);
`fastaStream`/`fastqStream` are the lazy record sequences the pyfastx reader
yields for the detected format, an exceptional element standing for a parse
error raised at that point; `outOpen` is `none` when `open(args.output, "w")`
succeeds — creating or truncating the file — or the OS error message when it
fails; draws are as in `runDraws`.  Any exception is caught at line 103,
printing `Error: <msg>` to stderr and exiting with code 1 before the
statistics block; otherwise the report is printed and the process exits 0. -/
def runModel (contents : Except String String)
    (fastaStream : List (Except String FastaRecord))
    (fastqStream : List (Except String FastqRecord))
    (outOpen : Option String)
    (mt : ℤ → Nat → ℚ) (ambient : Nat → ℚ) (seed : ℤ)
    (percent : ℚ) (min_len : Nat) : RunResult :=
  let draws := runDraws mt ambient seed
  let probability := percent / 100
  match contents with
  | .error e =>
    { exitCode := 1, errLines := ["Error: " ++ e], report := none, outputFile := none }
  | .ok text =>
    match detect_format text with
    | .error e =>
      { exitCode := 1, errLines := ["Error: " ++ e], report := none, outputFile := none }
    | .ok filetype =>
      match outOpen with
      | some e =>
        { exitCode := 1, errLines := ["Error: " ++ e], report := none, outputFile := none }
      | none =>
        match filetype with
        | .fastq =>
          match loopFastq min_len probability draws initState fastqStream with
          | (s, some e) =>
            { exitCode := 1, errLines := ["Error: " ++ e], report := none,
              outputFile := some s.out }
          | (s, none) =>
            { exitCode := 0, errLines := [],
              report := some (mkReport .fastq min_len percent s),
              outputFile := some s.out }
        | .fasta =>
          match loopFasta min_len probability draws initState fastaStream with
          | (s, some e) =>
            { exitCode := 1, errLines := ["Error: " ++ e], report := none,
              outputFile := some s.out }
          | (s, none) =>
            { exitCode := 0, errLines := [],
              report := some (mkReport .fasta min_len percent s),
              outputFile := some s.out }

lemma loopFasta_nil (m : Nat) (p : ℚ) (d : Nat → ℚ) (s : LoopState) :
    loopFasta m p d s [] = (s, none) := rfl

lemma loopFasta_cons_error (m : Nat) (p : ℚ) (d : Nat → ℚ) (s : LoopState)
    (e : String) (rest : List (Except String FastaRecord)) :
    loopFasta m p d s (.error e :: rest) = (s, some e) := rfl

lemma loopFasta_cons_ok (m : Nat) (p : ℚ) (d : Nat → ℚ) (s : LoopState)
    (r : FastaRecord) (rest : List (Except String FastaRecord)) :
    loopFasta m p d s (.ok r :: rest) = loopFasta m p d (fastaStep m p d s r) rest := rfl

lemma loopFastq_nil (m : Nat) (p : ℚ) (d : Nat → ℚ) (s : LoopState) :
    loopFastq m p d s [] = (s, none) := rfl

lemma loopFastq_cons_error (m : Nat) (p : ℚ) (d : Nat → ℚ) (s : LoopState)
    (e : String) (rest : List (Except String FastqRecord)) :
    loopFastq m p d s (.error e :: rest) = (s, some e) := rfl

lemma loopFastq_cons_ok (m : Nat) (p : ℚ) (d : Nat → ℚ) (s : LoopState)
    (r : FastqRecord) (rest : List (Except String FastqRecord)) :
    loopFastq m p d s (.ok r :: rest) = loopFastq m p d (fastqStep m p d s r) rest := rfl

lemma loopFasta_all_ok (m : Nat) (p : ℚ) (d : Nat → ℚ) (records : List FastaRecord) :
    ∀ s : LoopState,
      loopFasta m p d s (records.map .ok) = (records.foldl (fastaStep m p d) s, none) := by
  induction records with
  | nil => intro s; rfl
  | cons r rs ih =>
    intro s
    rw [List.map_cons, loopFasta_cons_ok, ih, List.foldl_cons]

lemma loopFastq_all_ok (m : Nat) (p : ℚ) (d : Nat → ℚ) (records : List FastqRecord) :
    ∀ s : LoopState,
      loopFastq m p d s (records.map .ok) = (records.foldl (fastqStep m p d) s, none) := by
  induction records with
  | nil => intro s; rfl
  | cons r rs ih =>
    intro s
    rw [List.map_cons, loopFastq_cons_ok, ih, List.foldl_cons]

lemma loopFasta_error_prefix (m : Nat) (p : ℚ) (d : Nat → ℚ)
    (pre : List FastaRecord) (e : String) (post : List (Except String FastaRecord)) :
    ∀ s : LoopState,
      loopFasta m p d s (pre.map .ok ++ .error e :: post)
        = (pre.foldl (fastaStep m p d) s, some e) := by
  induction pre with
  | nil => intro s; rfl
  | cons r rs ih =>
    intro s
    rw [List.map_cons, List.cons_append, loopFasta_cons_ok, ih, List.foldl_cons]

lemma loopFastq_error_prefix (m : Nat) (p : ℚ) (d : Nat → ℚ)
    (pre : List FastqRecord) (e : String) (post : List (Except String FastqRecord)) :
    ∀ s : LoopState,
      loopFastq m p d s (pre.map .ok ++ .error e :: post)
        = (pre.foldl (fastqStep m p d) s, some e) := by
  induction pre with
  | nil => intro s; rfl
  | cons r rs ih =>
    intro s
    rw [List.map_cons, List.cons_append, loopFastq_cons_ok, ih, List.foldl_cons]

lemma loopFasta_clean (m : Nat) (p : ℚ) (d : Nat → ℚ)
    (stream : List (Except String FastaRecord)) :
    ∀ s : LoopState,
      ((loopFasta m p d s stream).2 = none ↔ stream.all exceptOk = true) := by
  induction stream with
  | nil => intro s; simp [loopFasta_nil]
  | cons x rest ih =>
    intro s
    cases x with
    | error e => simp [loopFasta_cons_error, exceptOk]
    | ok r => simp [loopFasta_cons_ok, ih, exceptOk]

lemma loopFastq_clean (m : Nat) (p : ℚ) (d : Nat → ℚ)
    (stream : List (Except String FastqRecord)) :
    ∀ s : LoopState,
      ((loopFastq m p d s stream).2 = none ↔ stream.all exceptOk = true) := by
  induction stream with
  | nil => intro s; simp [loopFastq_nil]
  | cons x rest ih =>
    intro s
    cases x with
    | error e => simp [loopFastq_cons_error, exceptOk]
    | ok r => simp [loopFastq_cons_ok, ih, exceptOk]

lemma all_exceptOk_map {α : Type} (l : List (Except String α)) :
    l.all exceptOk = true → ∃ records : List α, l = records.map .ok := by
  induction l with
  | nil => intro _; exact ⟨[], rfl⟩
  | cons x rest ih =>
    intro h
    simp only [List.all_cons, Bool.and_eq_true] at h
    obtain ⟨records, hr⟩ := ih h.2
    cases x with
    | error e => simp [exceptOk] at h
    | ok r => exact ⟨r :: records, by simp [hr]⟩

lemma runModel_cases (c : Except String String)
    (fas : List (Except String FastaRecord)) (fqs : List (Except String FastqRecord))
    (oo : Option String) (mt : ℤ → Nat → ℚ) (amb : Nat → ℚ) (seed : ℤ)
    (pc : ℚ) (m : Nat) :
    (∃ e, c = .error e ∧
      runModel c fas fqs oo mt amb seed pc m
        = { exitCode := 1, errLines := ["Error: " ++ e], report := none, outputFile := none })
    ∨ (∃ text e, c = .ok text ∧ detect_format text = .error e ∧
      runModel c fas fqs oo mt amb seed pc m
        = { exitCode := 1, errLines := ["Error: " ++ e], report := none, outputFile := none })
    ∨ (∃ text ft e, c = .ok text ∧ detect_format text = .ok ft ∧ oo = some e ∧
      runModel c fas fqs oo mt amb seed pc m
        = { exitCode := 1, errLines := ["Error: " ++ e], report := none, outputFile := none })
    ∨ (∃ text s e, c = .ok text ∧ detect_format text = .ok .fasta ∧ oo = none ∧
      loopFasta m (pc / 100) (runDraws mt amb seed) initState fas = (s, some e) ∧
      runModel c fas fqs oo mt amb seed pc m
        = { exitCode := 1, errLines := ["Error: " ++ e], report := none,
            outputFile := some s.out })
    ∨ (∃ text s, c = .ok text ∧ detect_format text = .ok .fasta ∧ oo = none ∧
      loopFasta m (pc / 100) (runDraws mt amb seed) initState fas = (s, none) ∧
      runModel c fas fqs oo mt amb seed pc m
        = { exitCode := 0, errLines := [], report := some (mkReport .fasta m pc s),
            outputFile := some s.out })
    ∨ (∃ text s e, c = .ok text ∧ detect_format text = .ok .fastq ∧ oo = none ∧
      loopFastq m (pc / 100) (runDraws mt amb seed) initState fqs = (s, some e) ∧
      runModel c fas fqs oo mt amb seed pc m
        = { exitCode := 1, errLines := ["Error: " ++ e], report := none,
            outputFile := some s.out })
    ∨ (∃ text s, c = .ok text ∧ detect_format text = .ok .fastq ∧ oo = none ∧
      loopFastq m (pc / 100) (runDraws mt amb seed) initState fqs = (s, none) ∧
      runModel c fas fqs oo mt amb seed pc m
        = { exitCode := 0, errLines := [], report := some (mkReport .fastq m pc s),
            outputFile := some s.out }) := by
  rcases c with e | text
  · exact Or.inl ⟨e, rfl, rfl⟩
  · rcases hdet : detect_format text with e | ft
    · refine Or.inr (Or.inl ⟨text, e, rfl, hdet, ?_⟩)
      simp [runModel, hdet]
    · rcases oo with _ | e
      · cases ft
        · rcases hloop : loopFasta m (pc / 100) (runDraws mt amb seed) initState fas
            with ⟨s, err⟩
          rcases err with _ | e
          · refine Or.inr (Or.inr (Or.inr (Or.inr (Or.inl
              ⟨text, s, rfl, hdet, rfl, rfl, ?_⟩))))
            simp [runModel, hdet, hloop]
          · refine Or.inr (Or.inr (Or.inr (Or.inl
              ⟨text, s, e, rfl, hdet, rfl, rfl, ?_⟩)))
            simp [runModel, hdet, hloop]
        · rcases hloop : loopFastq m (pc / 100) (runDraws mt amb seed) initState fqs
            with ⟨s, err⟩
          rcases err with _ | e
          · refine Or.inr (Or.inr (Or.inr (Or.inr (Or.inr (Or.inr
              ⟨text, s, rfl, hdet, rfl, rfl, ?_⟩)))))
            simp [runModel, hdet, hloop]
          · refine Or.inr (Or.inr (Or.inr (Or.inr (Or.inr (Or.inl
              ⟨text, s, e, rfl, hdet, rfl, rfl, ?_⟩)))))
            simp [runModel, hdet, hloop]
      · exact Or.inr (Or.inr (Or.inl ⟨text, ft, e, rfl, hdet, rfl, by
          simp [runModel, hdet]⟩))

lemma mkReport_total (ft : SequenceFormat) (m : Nat) (pc : ℚ) (s : LoopState) :
    (mkReport ft m pc s).total_reads = s.total_reads := rfl

lemma mkReport_retained (ft : SequenceFormat) (m : Nat) (pc : ℚ) (s : LoopState) :
    (mkReport ft m pc s).retained_reads = s.retained_reads := rfl

lemma mkReport_ratio (ft : SequenceFormat) (m : Nat) (pc : ℚ) (s : LoopState) :
    (mkReport ft m pc s).actual_ratio
      = if 0 < s.total_reads then
          some (((s.retained_reads : ℚ) / (s.total_reads : ℚ)) * 100)
        else none := rfl

lemma mkReport_ratio_guard (ft : SequenceFormat) (m : Nat) (pc : ℚ) (s : LoopState) :
    ((mkReport ft m pc s).actual_ratio = none ↔ (mkReport ft m pc s).total_reads = 0)
    ∧ (0 < (mkReport ft m pc s).total_reads →
        (mkReport ft m pc s).actual_ratio
          = some ((((mkReport ft m pc s).retained_reads : ℚ)
                    / ((mkReport ft m pc s).total_reads : ℚ)) * 100)
        ∧ ((mkReport ft m pc s).total_reads : ℚ) ≠ 0) := by
  simp only [mkReport_total, mkReport_retained, mkReport_ratio]
  constructor
  · by_cases h : 0 < s.total_reads <;> simp [h] <;> omega
  · intro h
    refine ⟨by simp [h], ?_⟩
    exact Nat.cast_ne_zero.2 (by omega)

/-- Claim C8: the actual-retention-ratio line carries
`(retained_reads / total_reads) * 100` and is produced exactly when
`total_reads > 0`; when `total_reads = 0` the line is omitted, and whenever
the ratio appears in any run's report the divisor is provably non-zero, so
the division is never performed with a zero divisor. -/
theorem C8_ratio_guard (ft : SequenceFormat) (m : Nat) (pc : ℚ) (s : LoopState)
    (c : Except String String)
    (fas : List (Except String FastaRecord)) (fqs : List (Except String FastqRecord))
    (oo : Option String) (mt : ℤ → Nat → ℚ) (amb : Nat → ℚ) (seed : ℤ) :
    ((mkReport ft m pc s).actual_ratio = none ↔ s.total_reads = 0)
    ∧ (0 < s.total_reads →
        (mkReport ft m pc s).actual_ratio
          = some (((s.retained_reads : ℚ) / (s.total_reads : ℚ)) * 100)
        ∧ ((s.total_reads : ℚ) ≠ 0))
    ∧ (∀ rep : Report,
        (runModel c fas fqs oo mt amb seed pc m).report = some rep →
        ((rep.actual_ratio = none ↔ rep.total_reads = 0)
        ∧ (0 < rep.total_reads →
            rep.actual_ratio
              = some (((rep.retained_reads : ℚ) / (rep.total_reads : ℚ)) * 100)
            ∧ ((rep.total_reads : ℚ) ≠ 0)))) := by
  have hmk := mkReport_ratio_guard ft m pc s
  simp only [mkReport_total, mkReport_retained] at hmk
  refine ⟨hmk.1, hmk.2, ?_⟩
  intro rep hrep
  rcases runModel_cases c fas fqs oo mt amb seed pc m with
    ⟨e, hc, hrun⟩ | ⟨text, e, hc, hdet, hrun⟩ | ⟨text, ft', e, hc, hdet, hoo, hrun⟩ |
    ⟨text, s', e, hc, hdet, hoo, hloop, hrun⟩ | ⟨text, s', hc, hdet, hoo, hloop, hrun⟩ |
    ⟨text, s', e, hc, hdet, hoo, hloop, hrun⟩ | ⟨text, s', hc, hdet, hoo, hloop, hrun⟩
  · rw [hrun] at hrep; simp at hrep
  · rw [hrun] at hrep; simp at hrep
  · rw [hrun] at hrep; simp at hrep
  · rw [hrun] at hrep; simp at hrep
  · rw [hrun] at hrep
    simp only [Option.some.injEq] at hrep
    subst hrep
    exact mkReport_ratio_guard .fasta m pc s'
  · rw [hrun] at hrep; simp at hrep
  · rw [hrun] at hrep
    simp only [Option.some.injEq] at hrep
    subst hrep
    exact mkReport_ratio_guard .fastq m pc s'

/-- Witness for C8: a state with 2 total and 1 retained read yields the
ratio `(1/2)·100` with non-zero divisor. -/
theorem C8_ratio_guard_witness :
    (mkReport .fasta 0 (50 : ℚ) ⟨2, 2, 1, [], 2⟩).actual_ratio
        = some (((1 : ℚ) / (2 : ℚ)) * 100)
    ∧ ((2 : ℚ) ≠ 0) := by
  have h := (C8_ratio_guard .fasta 0 (50 : ℚ) ⟨2, 2, 1, [], 2⟩ (.error "x") [] [] none
    (fun _ _ => 0) (fun _ => 0) 0).2.1 (by norm_num)
  simpa using h

/-- Claim C9: every run exits with code 0 or 1; an exit code of 1 (any fatal
error: unreadable input, format-detection failure, unwritable output, parse
error) comes with an `Error:` line on stderr and no statistics report, an
exit code of 0 comes with an empty stderr and the report printed; the exit
code is 0 exactly when no stage failed; and a parse error at any point of
the record stream stops the loop there — the state is exactly the fold over
the records before the error, so no further records are processed. -/
theorem C9_exit_behavior (c : Except String String)
    (fas : List (Except String FastaRecord)) (fqs : List (Except String FastqRecord))
    (oo : Option String) (mt : ℤ → Nat → ℚ) (amb : Nat → ℚ) (seed : ℤ)
    (pc : ℚ) (m : Nat) :
    ((runModel c fas fqs oo mt amb seed pc m).exitCode = 0
      ∨ (runModel c fas fqs oo mt amb seed pc m).exitCode = 1)
    ∧ ((runModel c fas fqs oo mt amb seed pc m).exitCode = 1 →
        (runModel c fas fqs oo mt amb seed pc m).errLines ≠ []
        ∧ (runModel c fas fqs oo mt amb seed pc m).report = none)
    ∧ ((runModel c fas fqs oo mt amb seed pc m).exitCode = 0 →
        (runModel c fas fqs oo mt amb seed pc m).errLines = []
        ∧ (runModel c fas fqs oo mt amb seed pc m).report ≠ none)
    ∧ ((runModel c fas fqs oo mt amb seed pc m).exitCode = 0 ↔
        (∃ (text : String) (ft : SequenceFormat),
          c = .ok text ∧ detect_format text = .ok ft ∧ oo = none
          ∧ (ft = .fasta → fas.all exceptOk = true)
          ∧ (ft = .fastq → fqs.all exceptOk = true)))
    ∧ (∀ (pre : List FastaRecord) (e : String)
          (post : List (Except String FastaRecord)) (s0 : LoopState),
        loopFasta m (pc / 100) (runDraws mt amb seed) s0 (pre.map .ok ++ .error e :: post)
          = (pre.foldl (fastaStep m (pc / 100) (runDraws mt amb seed)) s0, some e))
    ∧ (∀ (pre : List FastqRecord) (e : String)
          (post : List (Except String FastqRecord)) (s0 : LoopState),
        loopFastq m (pc / 100) (runDraws mt amb seed) s0 (pre.map .ok ++ .error e :: post)
          = (pre.foldl (fastqStep m (pc / 100) (runDraws mt amb seed)) s0, some e)) := by
  have hmain : ((runModel c fas fqs oo mt amb seed pc m).exitCode = 0
      ∨ (runModel c fas fqs oo mt amb seed pc m).exitCode = 1)
    ∧ ((runModel c fas fqs oo mt amb seed pc m).exitCode = 1 →
        (runModel c fas fqs oo mt amb seed pc m).errLines ≠ []
        ∧ (runModel c fas fqs oo mt amb seed pc m).report = none)
    ∧ ((runModel c fas fqs oo mt amb seed pc m).exitCode = 0 →
        (runModel c fas fqs oo mt amb seed pc m).errLines = []
        ∧ (runModel c fas fqs oo mt amb seed pc m).report ≠ none)
    ∧ ((runModel c fas fqs oo mt amb seed pc m).exitCode = 0 ↔
        (∃ (text : String) (ft : SequenceFormat),
          c = .ok text ∧ detect_format text = .ok ft ∧ oo = none
          ∧ (ft = .fasta → fas.all exceptOk = true)
          ∧ (ft = .fastq → fqs.all exceptOk = true))) := by
    rcases runModel_cases c fas fqs oo mt amb seed pc m with
      ⟨e, hc, hrun⟩ | ⟨text, e, hc, hdet, hrun⟩ | ⟨text, ft', e, hc, hdet, hoo, hrun⟩ |
      ⟨text, s', e, hc, hdet, hoo, hloop, hrun⟩ | ⟨text, s', hc, hdet, hoo, hloop, hrun⟩ |
      ⟨text, s', e, hc, hdet, hoo, hloop, hrun⟩ | ⟨text, s', hc, hdet, hoo, hloop, hrun⟩
    · subst hc
      simp [hrun]
    · subst hc
      refine ⟨by rw [hrun]; exact Or.inr rfl,
              fun _ => by rw [hrun]; exact ⟨by simp, rfl⟩,
              fun h => by rw [hrun] at h; simp at h, ?_⟩
      constructor
      · intro h; rw [hrun] at h; simp at h
      · rintro ⟨text', ft, hc', hdet', -, -, -⟩
        injection hc' with htext
        subst htext
        rw [hdet] at hdet'
        simp at hdet'
    · subst hc hoo
      refine ⟨by rw [hrun]; exact Or.inr rfl,
              fun _ => by rw [hrun]; exact ⟨by simp, rfl⟩,
              fun h => by rw [hrun] at h; simp at h, ?_⟩
      constructor
      · intro h; rw [hrun] at h; simp at h
      · rintro ⟨text', ft, hc', hdet', hoo', -, -⟩
        simp at hoo'
    · subst hc hoo
      refine ⟨by rw [hrun]; exact Or.inr rfl,
              fun _ => by rw [hrun]; exact ⟨by simp, rfl⟩,
              fun h => by rw [hrun] at h; simp at h, ?_⟩
      constructor
      · intro h; rw [hrun] at h; simp at h
      · rintro ⟨text', ft, hc', hdet', -, hfa, hfq⟩
        injection hc' with htext
        subst htext
        rw [hdet] at hdet'
        injection hdet' with hft
        subst hft
        have hclean := (loopFasta_clean m (pc / 100) (runDraws mt amb seed) fas
          initState).2 (hfa rfl)
        rw [hloop] at hclean
        simp at hclean
    · subst hc hoo
      refine ⟨by rw [hrun]; exact Or.inl rfl,
              fun h => by rw [hrun] at h; simp at h,
              fun _ => by rw [hrun]; exact ⟨rfl, by simp⟩, ?_⟩
      constructor
      · intro _
        refine ⟨text, .fasta, rfl, hdet, rfl, fun _ => ?_, fun h => by simp at h⟩
        exact (loopFasta_clean m (pc / 100) (runDraws mt amb seed) fas initState).1
          (by rw [hloop])
      · intro _
        rw [hrun]
    · subst hc hoo
      refine ⟨by rw [hrun]; exact Or.inr rfl,
              fun _ => by rw [hrun]; exact ⟨by simp, rfl⟩,
              fun h => by rw [hrun] at h; simp at h, ?_⟩
      constructor
      · intro h; rw [hrun] at h; simp at h
      · rintro ⟨text', ft, hc', hdet', -, hfa, hfq⟩
        injection hc' with htext
        subst htext
        rw [hdet] at hdet'
        injection hdet' with hft
        subst hft
        have hclean := (loopFastq_clean m (pc / 100) (runDraws mt amb seed) fqs
          initState).2 (hfq rfl)
        rw [hloop] at hclean
        simp at hclean
    · subst hc hoo
      refine ⟨by rw [hrun]; exact Or.inl rfl,
              fun h => by rw [hrun] at h; simp at h,
              fun _ => by rw [hrun]; exact ⟨rfl, by simp⟩, ?_⟩
      constructor
      · intro _
        refine ⟨text, .fastq, rfl, hdet, rfl, fun h => by simp at h, fun _ => ?_⟩
        exact (loopFastq_clean m (pc / 100) (runDraws mt amb seed) fqs initState).1
          (by rw [hloop])
      · intro _
        rw [hrun]
  exact ⟨hmain.1, hmain.2.1, hmain.2.2.1, hmain.2.2.2,
         fun pre e post s0 =>
           loopFasta_error_prefix m (pc / 100) (runDraws mt amb seed) pre e post s0,
         fun pre e post s0 =>
           loopFastq_error_prefix m (pc / 100) (runDraws mt amb seed) pre e post s0⟩

/-- Counterexample to C10 as stated: on the run whose input text is
`">r\nACGT\n"` (detection succeeds with FASTA) but whose output path cannot
be opened (`open(args.output, "w")` raises, e.g. permission denied), the
output file is never created — so "on every run where detection succeeds,
the output file is created/truncated" is false without assuming the output
open succeeds. -/
theorem C10_output_creation_cex :
    detect_format ">r\nACGT\n" = .ok .fasta
    ∧ (runModel (.ok ">r\nACGT\n") [] [] (some "Permission denied")
        (fun _ _ => 0) (fun _ => 0) 0 50 0).outputFile = none :=
  ⟨rfl, rfl⟩

/-- Claim C10 (amended): format detection runs strictly before the output file is
opened — on every run where detection fails (unreadable input included) the
output file is never created; on every run where detection succeeds and the
output file opens successfully, the file is created/truncated before any
record is processed (it exists even when a parse error aborts the loop), and
a successful run that retains zero records leaves an existing, empty output
file. -/
theorem C10_output_creation (c : Except String String)
    (fas : List (Except String FastaRecord)) (fqs : List (Except String FastqRecord))
    (oo : Option String) (mt : ℤ → Nat → ℚ) (amb : Nat → ℚ) (seed : ℤ)
    (pc : ℚ) (m : Nat) :
    (∀ e, c = .error e →
        (runModel c fas fqs oo mt amb seed pc m).outputFile = none)
    ∧ (∀ text e, c = .ok text → detect_format text = .error e →
        (runModel c fas fqs oo mt amb seed pc m).outputFile = none)
    ∧ (∀ text ft, c = .ok text → detect_format text = .ok ft → oo = none →
        ∃ chunks, (runModel c fas fqs oo mt amb seed pc m).outputFile = some chunks)
    ∧ (∀ rep : Report,
        (runModel c fas fqs oo mt amb seed pc m).report = some rep →
        rep.retained_reads = 0 →
        (runModel c fas fqs oo mt amb seed pc m).outputFile = some []) := by
  refine ⟨?_, ?_, ?_, ?_⟩
  · intro e hc
    subst hc
    rfl
  · intro text e hc hdet
    subst hc
    simp [runModel, hdet]
  · intro text ft hc hdet hoo
    subst hc hoo
    cases ft
    · rcases hloop : loopFasta m (pc / 100) (runDraws mt amb seed) initState fas
        with ⟨s, err⟩
      rcases err with _ | e
      · exact ⟨s.out, by simp [runModel, hdet, hloop]⟩
      · exact ⟨s.out, by simp [runModel, hdet, hloop]⟩
    · rcases hloop : loopFastq m (pc / 100) (runDraws mt amb seed) initState fqs
        with ⟨s, err⟩
      rcases err with _ | e
      · exact ⟨s.out, by simp [runModel, hdet, hloop]⟩
      · exact ⟨s.out, by simp [runModel, hdet, hloop]⟩
  · intro rep hrep h0
    rcases runModel_cases c fas fqs oo mt amb seed pc m with
      ⟨e, hc, hrun⟩ | ⟨text, e, hc, hdet, hrun⟩ | ⟨text, ft', e, hc, hdet, hoo, hrun⟩ |
      ⟨text, s', e, hc, hdet, hoo, hloop, hrun⟩ | ⟨text, s', hc, hdet, hoo, hloop, hrun⟩ |
      ⟨text, s', e, hc, hdet, hoo, hloop, hrun⟩ | ⟨text, s', hc, hdet, hoo, hloop, hrun⟩
    · rw [hrun] at hrep; simp at hrep
    · rw [hrun] at hrep; simp at hrep
    · rw [hrun] at hrep; simp at hrep
    · rw [hrun] at hrep; simp at hrep
    · rw [hrun] at hrep
      simp only [Option.some.injEq] at hrep
      subst hrep
      rw [mkReport_retained] at h0
      have hclean : fas.all exceptOk = true :=
        (loopFasta_clean m (pc / 100) (runDraws mt amb seed) fas initState).1
          (by rw [hloop])
      obtain ⟨records, hfas⟩ := all_exceptOk_map fas hclean
      subst hfas
      rw [loopFasta_all_ok] at hloop
      have hs : records.foldl (fastaStep m (pc / 100) (runDraws mt amb seed)) initState
          = s' := by
        simpa using congrArg Prod.fst hloop
      subst hs
      have hret : (List.foldl (fastaStep m (pc / 100) (runDraws mt amb seed))
            initState records).retained_reads
          = (fastaRetained m (pc / 100) (runDraws mt amb seed) 0 records).length := by
        simpa [initState] using
          fasta_foldl_retained m (pc / 100) (runDraws mt amb seed) records initState
      rw [hret] at h0
      have hnil := List.length_eq_zero.mp h0
      have hout : (List.foldl (fastaStep m (pc / 100) (runDraws mt amb seed))
            initState records).out
          = (fastaRetained m (pc / 100) (runDraws mt amb seed) 0 records).map
              serializeFasta := by
        simpa [initState] using
          fasta_foldl_out m (pc / 100) (runDraws mt amb seed) records initState
      rw [hnil] at hout
      simp at hout
      simp [hrun, hout]
    · rw [hrun] at hrep; simp at hrep
    · rw [hrun] at hrep
      simp only [Option.some.injEq] at hrep
      subst hrep
      rw [mkReport_retained] at h0
      have hclean : fqs.all exceptOk = true :=
        (loopFastq_clean m (pc / 100) (runDraws mt amb seed) fqs initState).1
          (by rw [hloop])
      obtain ⟨records, hfqs⟩ := all_exceptOk_map fqs hclean
      subst hfqs
      rw [loopFastq_all_ok] at hloop
      have hs : records.foldl (fastqStep m (pc / 100) (runDraws mt amb seed)) initState
          = s' := by
        simpa using congrArg Prod.fst hloop
      subst hs
      have hret : (List.foldl (fastqStep m (pc / 100) (runDraws mt amb seed))
            initState records).retained_reads
          = (fastqRetained m (pc / 100) (runDraws mt amb seed) 0 records).length := by
        simpa [initState] using
          fastq_foldl_retained m (pc / 100) (runDraws mt amb seed) records initState
      rw [hret] at h0
      have hnil := List.length_eq_zero.mp h0
      have hout : (List.foldl (fastqStep m (pc / 100) (runDraws mt amb seed))
            initState records).out
          = (fastqRetained m (pc / 100) (runDraws mt amb seed) 0 records).map
              serializeFastq := by
        simpa [initState] using
          fastq_foldl_out m (pc / 100) (runDraws mt amb seed) records initState
      rw [hnil] at hout
      simp at hout
      simp [hrun, hout]

/-- Witness for C9: a parse error after one record stops the FASTA loop with
the state of exactly that one processed record. -/
theorem C9_exit_behavior_witness :
    loopFasta 0 ((50 : ℚ) / 100) (runDraws (fun _ _ => 0) (fun _ => 0) 0) initState
        ([FastaRecord.mk "a" "A"].map .ok ++ .error "parse" :: [])
      = ([FastaRecord.mk "a" "A"].foldl
          (fastaStep 0 ((50 : ℚ) / 100) (runDraws (fun _ _ => 0) (fun _ => 0) 0))
          initState, some "parse") :=
  (C9_exit_behavior (.ok ">r") [] [] none (fun _ _ => 0) (fun _ => 0) 0 50 0).2.2.2.2.1
    [FastaRecord.mk "a" "A"] "parse" [] initState

/-- Witness for C10 (amended) at concrete runs: unreadable input and failed
detection leave no output file; successful detection with a successful open
creates one; a successful empty run leaves an empty output file. -/
theorem C10_output_creation_witness :
    (runModel (.error "unreadable") [] [] none (fun _ _ => 0) (fun _ => 0) 0 50 0).outputFile
        = none
    ∧ (runModel (.ok "xy") [] [] none (fun _ _ => 0) (fun _ => 0) 0 50 0).outputFile
        = none
    ∧ (runModel (.ok ">r") [] [] none (fun _ _ => 0) (fun _ => 0) 0 50 0).outputFile
        = some [] := by
  have h := C10_output_creation (.ok ">r") [] [] none (fun _ _ => 0) (fun _ => 0) 0 50 0
  refine ⟨(C10_output_creation (.error "unreadable") [] [] none (fun _ _ => 0)
            (fun _ => 0) 0 50 0).1 "unreadable" rfl,
          (C10_output_creation (.ok "xy") [] [] none (fun _ _ => 0)
            (fun _ => 0) 0 50 0).2.1 "xy" "Cannot detect file format (not FASTA/FASTQ)"
            rfl rfl,
          h.2.2.2 (mkReport .fasta 0 50 initState) rfl rfl⟩
